import Mathlib

/-!
# vlsh `mux/pty_helpers.h`: terminal-control primitives

A shallow embedding of the helper functions of `src/mux/pty_helpers.h` and
the properties of them that the specification states.

Conventions of the embedding.

* Every operating-system call (`tcgetattr`, `tcsetattr`, `ioctl`, `select`,
  `execvp`, signal delivery) is a function of an explicit answer of the
  kernel, so that a statement "for every outcome of the call" is a universal
  quantification over that answer.  What `tcsetattr` leaves on the terminal
  is decided by the driver (`store`), and `select` records the call it
  receives in the kernel's log (`Kernel.waits`).
* C `int` arithmetic is done on `Int` and wrapped to 32 bits (`wrap32`);
  `tcflag_t` words are naturals masked to 32 bits.
* Descriptors are C `int` values.  An `fd_set` is a bitmap of `FD_SETSIZE`
  bits; `FD_SET` and `FD_ISSET` on a descriptor outside `[0, FD_SETSIZE)` are
  undefined in C, and a function that reaches one has no result (`none`).
* The capacities of the caller's buffers (`out_readable`, `orig_buf`) are a
  matter of memory layout and are not part of the embedding.
-/

namespace Vlsh

/-! ## Machine integers -/

/-- Smallest value of a 32-bit `int`. -/
def INT_MIN : Int := -2147483648

/-- Largest value of a 32-bit `int`. -/
def INT_MAX : Int := 2147483647

/-- Two's-complement wrap of an integer to the range of a 32-bit `int`. -/
def wrap32 (x : Int) : Int := (x + 2147483648) % 4294967296 - 2147483648

/-- C `a / b` on `int` (truncation toward zero). -/
def int_div (a b : Int) : Int := wrap32 (Int.tdiv a b)

/-- C `a % b` on `int` (sign of the dividend). -/
def int_mod (a b : Int) : Int := wrap32 (Int.tmod a b)

/-- C `a * b` on `int`. -/
def int_mul (a b : Int) : Int := wrap32 (a * b)

/-- C `a + b` on `int`. -/
def int_add (a b : Int) : Int := wrap32 (a + b)

/-! ## Readiness multiplexer: `vlsh_select_readable` -/

/-- Number of descriptors an `fd_set` holds (`__FD_SETSIZE` of glibc). -/
def FD_SETSIZE : Nat := 1024

/-- The `fd_set` of `<sys/select.h>`: a bitmap of `FD_SETSIZE` bits, bit `i`
standing for descriptor `i`. -/
abbrev fd_set := Fin FD_SETSIZE → Bool

/-- `FD_ZERO(&set)`. -/
def FD_ZERO : fd_set := fun _ => false

/-- `FD_SET(fd, &set)`: sets bit `fd`; undefined for a descriptor that is
negative or not below `FD_SETSIZE` (the macro does not check). -/
def FD_SET (fd : Int) (set : fd_set) : Option fd_set :=
  if 0 ≤ fd ∧ fd < (FD_SETSIZE : Int) then
    some (fun i => if (i.val : Int) = fd then true else set i)
  else none

/-- `FD_ISSET(fd, &set)`: reads bit `fd`; undefined outside `[0, FD_SETSIZE)`. -/
def FD_ISSET (fd : Int) (set : fd_set) : Option Bool :=
  if h : 0 ≤ fd ∧ fd < (FD_SETSIZE : Int) then
    some (set ⟨fd.toNat, (Int.toNat_lt h.1).2 h.2⟩)
  else none

/-- The `struct timeval` of `<sys/time.h>`; both fields are 64-bit `long`. -/
structure timeval where
  tv_sec : Int
  tv_usec : Int
deriving DecidableEq, Repr

/-- The kernel's answer to one `select` call: its return value and the set of
descriptors that are ready for reading when it returns. -/
structure SelectOutcome where
  ret : Int
  ready : Int → Bool

/-- One call `select(nfds, &readfds, NULL, NULL, &timeout)` as the kernel
receives it. -/
structure SelectCall where
  nfds : Int
  readfds : fd_set
  timeout : timeval

/-- The kernel as `select` sees it: the answer it gives to the next wait, and
the waits it has been asked for so far, oldest first.  A call of
`vlsh_select_readable` waits once, so a statement for every `answer` is a
statement for every outcome of that wait. -/
structure Kernel where
  answer : SelectOutcome
  waits : List SelectCall

/-- What `select` leaves behind: the return value, the read set and the kernel. -/
structure SelectReturn where
  ret : Int
  readfds : fd_set
  kernel : Kernel

/-- The call `select(nfds, &set, NULL, NULL, &tv)`.  The kernel logs the call.
On a positive return the set keeps the descriptors that were examined (members
of `set` below `nfds`) and are ready; on a timeout it is emptied; on an error
it is left as it was. -/
def select (k : Kernel) (nfds : Int) (set : fd_set) (tv : timeval) : SelectReturn :=
  let k1 : Kernel :=
    { k with waits := k.waits ++ [{ nfds := nfds, readfds := set, timeout := tv }] }
  if k.answer.ret < 0 then { ret := k.answer.ret, readfds := set, kernel := k1 }
  else if k.answer.ret = 0 then { ret := 0, readfds := FD_ZERO, kernel := k1 }
  else
    { ret := k.answer.ret
      readfds := fun i => decide ((i.val : Int) < nfds) && set i && k.answer.ready (i.val : Int)
      kernel := k1 }

/-- The first loop of `vlsh_select_readable` (lines 66-69) from the state
`(set, maxfd)`: `FD_SET(fds[i], &set); if (fds[i] > maxfd) maxfd = fds[i];`. -/
def mark_loop : List Int → fd_set → Int → Option (fd_set × Int)
  | [], set, maxfd => some (set, maxfd)
  | fd :: rest, set, maxfd =>
    match FD_SET fd set with
    | none => none
    | some set1 => mark_loop rest set1 (if fd > maxfd then fd else maxfd)

/-- The second loop of `vlsh_select_readable` (lines 74-76) from the state
`(n, out_readable)`: `if (FD_ISSET(fds[i], &set)) out_readable[n++] = fds[i];`. -/
def collect_loop (set : fd_set) : List Int → Nat → (Nat → Int) → Option (Nat × (Nat → Int))
  | [], n, out => some (n, out)
  | fd :: rest, n, out =>
    match FD_ISSET fd set with
    | none => none
    | some true => collect_loop set rest (n + 1) (Function.update out n fd)
    | some false => collect_loop set rest n out

/-- What a call of `vlsh_select_readable` leaves behind: the return value, the
contents of `out_readable` and the kernel. -/
structure SelectResult where
  ret : Int
  out_readable : Nat → Int
  kernel : Kernel

/-- The function `vlsh_select_readable(fds, nfds, out_readable, timeout_ms)` with
`fds[0..nfds-1]` given as a list; `none` when the call runs into undefined
behaviour. -/
def vlsh_select_readable (k : Kernel) (fds : List Int) (out_readable : Nat → Int)
    (timeout_ms : Int) : Option SelectResult :=
  match mark_loop fds FD_ZERO 0 with
  | none => none
  | some (set, maxfd) =>
    let tv : timeval :=
      { tv_sec := int_div timeout_ms 1000
        tv_usec := int_mul (int_mod timeout_ms 1000) 1000 }
    let r := select k (int_add maxfd 1) set tv
    if r.ret ≤ 0 then some { ret := 0, out_readable := out_readable, kernel := r.kernel }
    else
      match collect_loop r.readfds fds 0 out_readable with
      | none => none
      | some (n, out) => some { ret := (n : Int), out_readable := out, kernel := r.kernel }

/-! ## Terminal mode controller: `vlsh_enter_raw`, `vlsh_restore_term` -/

/-- Number of control characters in the glibc `struct termios`. -/
def NCCS : Nat := 32

/-- Input flag: translate CR to NL on input (`0000400`). -/
def ICRNL : Nat := 0x100

/-- Input flag: XON/XOFF flow control on output (`0002000`). -/
def IXON : Nat := 0x400

/-- Output flag: implementation-defined output processing (`0000001`). -/
def OPOST : Nat := 0x1

/-- Local flag: generate signals on INTR, QUIT, SUSP (`0000001`). -/
def ISIG : Nat := 0x1

/-- Local flag: canonical (line-at-a-time) input (`0000002`). -/
def ICANON : Nat := 0x2

/-- Local flag: echo input characters (`0000010`). -/
def ECHO : Nat := 0x8

/-- Local flag: implementation-defined input processing (`0100000`). -/
def IEXTEN : Nat := 0x8000

/-- Index in `c_cc` of the inter-byte timeout of a non-canonical read. -/
def VTIME : Fin NCCS := ⟨5, by decide⟩

/-- Index in `c_cc` of the minimum byte count of a non-canonical read. -/
def VMIN : Fin NCCS := ⟨6, by decide⟩

/-- The `struct termios` of `<termios.h>` (glibc, Linux): four 32-bit flag
words, the line discipline, the control characters and the two speeds. -/
structure termios where
  c_iflag : Nat
  c_oflag : Nat
  c_cflag : Nat
  c_lflag : Nat
  c_line : Nat
  c_cc : Fin NCCS → Nat
  c_ispeed : Nat
  c_ospeed : Nat

/-- The flag words of a `termios` hold 32-bit `tcflag_t` values. -/
def termios.wf (t : termios) : Prop :=
  t.c_iflag < 4294967296 ∧ t.c_oflag < 4294967296 ∧ t.c_cflag < 4294967296 ∧
    t.c_lflag < 4294967296

/-- The C expression `~(unsigned)m`: 32-bit complement. -/
def not32 (m : Nat) : Nat := 4294967295 - m % 4294967296

/-- `tcgetattr(0, &t)`: the configuration of the terminal when the call
succeeds, nothing when it fails (return value below 0). -/
def tcgetattr (ok : Bool) (tty : termios) : Option termios :=
  if ok then some tty else none

/-- Number of control characters the Linux kernel keeps for a terminal. -/
def KERNEL_NCCS : Nat := 19

/-- `tcsetattr(0, TCSANOW, &t)`: the return value and the configuration of the
terminal afterwards.  The call reports success as soon as it carried out any
of the requested changes, so what the terminal holds after a successful call
is for the driver to decide: `store tty t` is the configuration it keeps when
asked for `t` while holding `tty`.  A failing call leaves the terminal as it
was. -/
def tcsetattr (store : termios → termios → termios) (ok : Bool) (tty : termios) (t : termios) :
    Int × termios :=
  if ok then (0, store tty t) else (-1, tty)

/-- A driver that keeps every requested configuration in full. -/
def verbatim : termios → termios → termios := fun _ t => t

/-- Linux with glibc: the kernel keeps `KERNEL_NCCS` of the `NCCS` control
characters of a request, and a read gives 0 for the others. -/
def linux_store : termios → termios → termios :=
  fun _ t => { t with c_cc := fun i => if i.val < KERNEL_NCCS then t.c_cc i else 0 }

/-- The local `raw` of `vlsh_enter_raw` when `tcsetattr` is called (lines 19-24),
from the configuration `orig` that was read. -/
def raw_of (orig : termios) : termios :=
  let raw := orig
  let raw := { raw with c_iflag := raw.c_iflag &&& not32 (ICRNL ||| IXON) }
  let raw := { raw with c_oflag := raw.c_oflag &&& not32 OPOST }
  let raw := { raw with c_lflag := raw.c_lflag &&& not32 (ECHO ||| ICANON ||| ISIG ||| IEXTEN) }
  let raw := { raw with c_cc := Function.update raw.c_cc VMIN 1 }
  let raw := { raw with c_cc := Function.update raw.c_cc VTIME 0 }
  raw

/-- What a call of `vlsh_enter_raw` or `vlsh_restore_term` leaves behind: the
return value, the terminal's configuration and the snapshot buffer. -/
structure TermResult where
  ret : Int
  tty : termios
  orig_buf : termios

/-- The function `vlsh_enter_raw(orig_buf)` on a terminal whose configuration is
`tty` and whose driver is `store`; `get_ok` and `set_ok` say whether `tcgetattr`
and `tcsetattr` succeed. -/
def vlsh_enter_raw (store : termios → termios → termios) (get_ok set_ok : Bool) (tty : termios)
    (orig_buf : termios) : TermResult :=
  match tcgetattr get_ok tty with
  | none => { ret := -1, tty := tty, orig_buf := orig_buf }
  | some orig =>
    let orig_buf := orig
    let raw := raw_of orig
    let r := tcsetattr store set_ok tty raw
    { ret := r.1, tty := r.2, orig_buf := orig_buf }

/-- The `struct winsize` of `<sys/ioctl.h>`; the fields are `unsigned short`. -/
structure winsize where
  ws_row : Nat
  ws_col : Nat
  ws_xpixel : Nat
  ws_ypixel : Nat
deriving DecidableEq, Repr

/-- `ioctl(1, TIOCGWINSZ, &ws)`: `answer` is the window size the kernel reports,
or nothing when the call fails; the result is the return value and `ws`
afterwards. -/
def ioctl_TIOCGWINSZ (answer : Option winsize) (ws : winsize) : Int × winsize :=
  match answer with
  | some reported => (0, reported)
  | none => (-1, ws)

/-- The function `vlsh_get_term_size(&rows, &cols)`: the values stored in `*rows`
and `*cols`. -/
def vlsh_get_term_size (answer : Option winsize) : Int × Int :=
  let ws : winsize := { ws_row := 0, ws_col := 0, ws_xpixel := 0, ws_ypixel := 0 }
  let r := ioctl_TIOCGWINSZ answer ws
  if r.1 = 0 ∧ r.2.ws_row > 1 then ((r.2.ws_row : Int), (r.2.ws_col : Int))
  else (24, 80)

/-! ## Session launcher: `vlsh_exec` -/

/-- What has become of the calling process once a piece of code has run. -/
inductive Fate where
  | image_replaced (file : String) (argv : List String)
  | exited (status : Int)
  | returned
deriving DecidableEq, Repr

/-- `execvp(file, argv)`: when the program can be located and executed the image
is replaced and the call does not return; otherwise it returns -1. -/
def execvp (can_run : Bool) (file : String) (argv : List String) : Fate ⊕ Int :=
  if can_run then Sum.inl (Fate.image_replaced file argv) else Sum.inr (-1)

/-- `_exit(status)`: the process terminates; the parent sees the low 8 bits. -/
def _exit (status : Int) : Fate := Fate.exited (status % 256)

/-- The function `vlsh_exec(path)`; `can_run` is the outcome of the image
replacement. -/
def vlsh_exec (can_run : Bool) (path : String) : Fate :=
  let argv := [path]
  match execvp can_run path argv with
  | Sum.inl fate => fate
  | Sum.inr _ => _exit 1

/-! ## Resize signal latch -/

/-- Initial value of `_vlsh_sigwinch_flag`. -/
def sigwinch_flag_init : Int := 0

/-- The handler `_vlsh_sigwinch_handler(s)`: the value of the flag afterwards. -/
def _vlsh_sigwinch_handler (_flag : Int) : Int := 1

/-- The function `vlsh_check_sigwinch()` run without interruption on a flag: the
returned value and the flag afterwards. -/
def vlsh_check_sigwinch (flag : Int) : Int × Int :=
  let v := flag
  let flag := 0
  (v, flag)

/-- What the main loop and the kernel do to the latch, one whole call at a time. -/
inductive Event where
  | signal
  | poll
deriving DecidableEq, Repr

/-- One event on the pair (flag, values returned by the polls so far). -/
def on_event (st : Int × List Int) : Event → Int × List Int
  | Event.signal => (_vlsh_sigwinch_handler st.1, st.2)
  | Event.poll => ((vlsh_check_sigwinch st.1).2, st.2 ++ [(vlsh_check_sigwinch st.1).1])

/-- A sequence of events from a given flag: the flag at the end and the values
the polls returned, in order. -/
def run_events (flag : Int) (evs : List Event) : Int × List Int :=
  evs.foldl on_event (flag, [])

/-- Whether a signal was delivered after the last poll of `evs` (or since the
start when `evs` has no poll). -/
def signalled_since_last_poll (evs : List Event) : Bool :=
  (evs.reverse.takeWhile (fun e => e != Event.poll)).contains Event.signal

/-- The statements of `vlsh_check_sigwinch` and the handler as separate steps:
the handler may be delivered before or after any statement of the main loop. -/
inductive Step where
  | deliver
  | read
  | clear
deriving DecidableEq, Repr

/-- The latch seen statement by statement: the flag, the local `v` of the call
in progress and the values returned so far. -/
structure Latch where
  flag : Int
  v : Int
  returned : List Int
deriving DecidableEq, Repr

/-- One step: `deliver` runs the handler, `read` is `int v = _vlsh_sigwinch_flag;`
and `clear` is `_vlsh_sigwinch_flag = 0; return v;`. -/
def on_step (m : Latch) : Step → Latch
  | Step.deliver => { m with flag := _vlsh_sigwinch_handler m.flag }
  | Step.read => { m with v := m.flag }
  | Step.clear => { m with flag := 0, returned := m.returned ++ [m.v] }

/-- A sequence of steps from the initial latch. -/
def run_steps (steps : List Step) : Latch :=
  steps.foldl on_step { flag := sigwinch_flag_init, v := 0, returned := [] }

/-- One round of the main loop: `before` signals, the read of the flag, `inside`
signals between the read and the clear, the clear. -/
def round_steps (r : Nat × Nat) : List Step :=
  List.replicate r.1 Step.deliver ++ [Step.read] ++ List.replicate r.2 Step.deliver ++
    [Step.clear]

/-- Whether some poll that completes after step `i` of `steps` returns true. -/
def reported_after (steps : List Step) (i : Nat) : Bool :=
  ((run_steps steps).returned.drop (run_steps (steps.take (i + 1))).returned.length).any
    (fun v => v != 0)

/-- A cooked-mode configuration used as a concrete terminal in examples: the
flag words of `stty sane` on Linux, with sample control characters. -/
def cooked : termios :=
  { c_iflag := 0x4500, c_oflag := 0x5, c_cflag := 0xbf, c_lflag := 0x8a3b, c_line := 0
    c_cc := fun i => if i = VMIN then 1 else if i = VTIME then 0 else 3 + i.val
    c_ispeed := 15, c_ospeed := 15 }

/-! ## Properties -/

/-! ### PTY geometry -/

/-- C3: for every outcome of the window-size read, `vlsh_get_term_size` stores
(24, 80) when the read fails or reports at most one row, and otherwise exactly
the rows and columns that were read; being a total function of the outcome, it
always produces a result. -/
theorem get_term_size_spec (answer : Option winsize) :
    vlsh_get_term_size answer =
      match answer with
      | none => (24, 80)
      | some ws => if ws.ws_row ≤ 1 then (24, 80) else ((ws.ws_row : Int), (ws.ws_col : Int)) := by
  cases answer with
  | none => simp [vlsh_get_term_size, ioctl_TIOCGWINSZ]
  | some ws =>
    by_cases h : ws.ws_row ≤ 1
    · have h2 : ¬ 1 < ws.ws_row := by omega
      simp [vlsh_get_term_size, ioctl_TIOCGWINSZ, h, h2]
    · have h2 : 1 < ws.ws_row := by omega
      simp [vlsh_get_term_size, ioctl_TIOCGWINSZ, h, h2]

/-- C7, as stated, fails: a successful read that reports 2 rows and 0 columns is
handed back unchanged, so the returned column count is 0. -/
theorem get_term_size_zero_columns :
    vlsh_get_term_size (some { ws_row := 2, ws_col := 0, ws_xpixel := 0, ws_ypixel := 0 }) = (2, 0) ∧
      ¬ (1 ≤ (vlsh_get_term_size
            (some { ws_row := 2, ws_col := 0, ws_xpixel := 0, ws_ypixel := 0 })).2) := by
  decide

/-- C7, amended: for every outcome of the window-size read the returned rows are
at least 2 and the returned columns are non-negative; the returned columns are
0 exactly when the read succeeds with more than one row and reports 0 columns,
and at least 1 in every other case. -/
theorem get_term_size_bounds (answer : Option winsize) :
    2 ≤ (vlsh_get_term_size answer).1 ∧ 0 ≤ (vlsh_get_term_size answer).2 ∧
      ((vlsh_get_term_size answer).2 = 0 ↔
        ∃ ws, answer = some ws ∧ 1 < ws.ws_row ∧ ws.ws_col = 0) ∧
      (1 ≤ (vlsh_get_term_size answer).2 ↔
        ¬ ∃ ws, answer = some ws ∧ 1 < ws.ws_row ∧ ws.ws_col = 0) := by
  cases answer with
  | none => simp [vlsh_get_term_size, ioctl_TIOCGWINSZ]
  | some ws =>
    by_cases h : 1 < ws.ws_row
    · have hv : vlsh_get_term_size (some ws) = ((ws.ws_row : Int), (ws.ws_col : Int)) := by
        simp [vlsh_get_term_size, ioctl_TIOCGWINSZ, h]
      rw [hv]
      refine ⟨by simp only; omega, by simp only; omega, ?_, ?_⟩
      · constructor
        · intro hc
          exact ⟨ws, rfl, h, by simp only at hc; omega⟩
        · rintro ⟨ws2, heq, _, hc⟩
          cases heq
          simp [hc]
      · constructor
        · rintro hc ⟨ws2, heq, _, hc2⟩
          cases heq
          simp only at hc
          omega
        · intro hne
          have hcol : ws.ws_col ≠ 0 := fun hc => hne ⟨ws, rfl, h, hc⟩
          simp only
          omega
    · have hv : vlsh_get_term_size (some ws) = (24, 80) := by
        simp [vlsh_get_term_size, ioctl_TIOCGWINSZ, h]
      rw [hv]
      refine ⟨by decide, by decide, ?_, ?_⟩
      · constructor
        · intro hc
          exact absurd hc (by decide)
        · rintro ⟨ws2, heq, h2, _⟩
          cases heq
          exact absurd h2 h
      · constructor
        · rintro _ ⟨ws2, heq, h2, _⟩
          cases heq
          exact absurd h2 h
        · intro _
          decide

/-- C7, amended, at a successful read of 50 rows and 0 columns: 0 columns are
returned; and at a failed read: at least one column. -/
theorem get_term_size_bounds_witness :
    (vlsh_get_term_size
        (some { ws_row := 50, ws_col := 0, ws_xpixel := 0, ws_ypixel := 0 })).2 = 0 ∧
      1 ≤ (vlsh_get_term_size none).2 :=
  ⟨(get_term_size_bounds _).2.2.1.mpr ⟨_, rfl, by decide, rfl⟩,
    (get_term_size_bounds none).2.2.2.mpr (by simp)⟩

/-! ### Session launcher -/

/-- C10: `vlsh_exec` never returns to its caller: for every path and every
outcome of the image replacement the process either runs the new program,
started with the argument vector `[path]`, or has exited with status 1, which is
not 0. -/
theorem vlsh_exec_never_returns (can_run : Bool) (path : String) :
    vlsh_exec can_run path ≠ Fate.returned ∧
      vlsh_exec can_run path =
        (if can_run then Fate.image_replaced path [path] else Fate.exited 1) ∧
      Fate.exited 1 ≠ Fate.exited 0 := by
  cases can_run <;> simp [vlsh_exec, execvp, _exit]

/-! ### Terminal mode controller -/

/-- Bit `i` of `x & ~(unsigned)m` for a 32-bit word `x`: the bit of `x`, cleared
where `m` has a bit. -/
theorem testBit_and_not32 (x m i : Nat) (hx : x < 4294967296) :
    (x &&& not32 m).testBit i = (x.testBit i && !m.testBit i) := by
  have hm : m % 4294967296 < 2 ^ 32 := Nat.mod_lt _ (by norm_num)
  have hnot : not32 m = 2 ^ 32 - (m % 4294967296 + 1) := by
    unfold not32
    omega
  have hpow : (4294967296 : Nat) = 2 ^ 32 := by norm_num
  rw [Nat.testBit_and, hnot, Nat.testBit_two_pow_sub_succ hm, hpow, Nat.testBit_mod_two_pow]
  by_cases hi : i < 32
  · simp [hi]
  · have hle : 2 ^ 32 ≤ 2 ^ i := Nat.pow_le_pow_right (by norm_num) (by omega)
    have hxi : x.testBit i = false := Nat.testBit_lt_two_pow (by omega)
    simp [hi, hxi]

/-- A flag `f` contained in the mask `m` is clear in `x & ~(unsigned)m`. -/
theorem and_not32_clears (x m f : Nat) (hx : x < 4294967296)
    (hf : ∀ i, f.testBit i = true → m.testBit i = true) :
    (x &&& not32 m) &&& f = 0 := by
  apply Nat.eq_of_testBit_eq
  intro i
  rw [Nat.testBit_and, testBit_and_not32 x m i hx, Nat.zero_testBit]
  cases hfi : f.testBit i
  · simp
  · simp [hf i hfi]

/-- C5: for every well-formed configuration `C` that `vlsh_enter_raw` reads, the
configuration it asks the terminal to hold, and the one installed by a driver
that keeps requests in full, is `raw_of C`, in which ICANON, ISIG, ECHO and
IEXTEN are clear in the local flags, OPOST in the output flags, ICRNL and IXON
in the input flags, VMIN is 1 and VTIME is 0, and every other bit of the three
flag words, every other control character and every other field is as in `C`;
with any driver `store` the terminal holds `store C (raw_of C)`. -/
theorem enter_raw_installs (store : termios → termios → termios) (get_ok set_ok : Bool)
    (C buf : termios) (hwf : C.wf) (hget : get_ok = true) (hset : set_ok = true) :
    (vlsh_enter_raw store get_ok set_ok C buf).ret = 0 ∧
      (vlsh_enter_raw verbatim get_ok set_ok C buf).tty = raw_of C ∧
      ((raw_of C).c_lflag &&& ICANON = 0 ∧ (raw_of C).c_lflag &&& ISIG = 0 ∧
        (raw_of C).c_lflag &&& ECHO = 0 ∧ (raw_of C).c_lflag &&& IEXTEN = 0) ∧
      (raw_of C).c_oflag &&& OPOST = 0 ∧
      ((raw_of C).c_iflag &&& ICRNL = 0 ∧ (raw_of C).c_iflag &&& IXON = 0) ∧
      ((raw_of C).c_cc VMIN = 1 ∧ (raw_of C).c_cc VTIME = 0) ∧
      (∀ i, (ECHO ||| ICANON ||| ISIG ||| IEXTEN).testBit i = false →
        (raw_of C).c_lflag.testBit i = C.c_lflag.testBit i) ∧
      (∀ i, OPOST.testBit i = false → (raw_of C).c_oflag.testBit i = C.c_oflag.testBit i) ∧
      (∀ i, (ICRNL ||| IXON).testBit i = false →
        (raw_of C).c_iflag.testBit i = C.c_iflag.testBit i) ∧
      (∀ j, j ≠ VMIN → j ≠ VTIME → (raw_of C).c_cc j = C.c_cc j) ∧
      (raw_of C).c_cflag = C.c_cflag ∧ (raw_of C).c_line = C.c_line ∧
      (raw_of C).c_ispeed = C.c_ispeed ∧ (raw_of C).c_ospeed = C.c_ospeed ∧
      (vlsh_enter_raw store get_ok set_ok C buf).tty = store C (raw_of C) := by
  subst hget hset
  obtain ⟨hi, ho, _, hl⟩ := hwf
  refine ⟨by simp [vlsh_enter_raw, tcgetattr, tcsetattr],
    by simp [vlsh_enter_raw, tcgetattr, tcsetattr, verbatim], ⟨?_, ?_, ?_, ?_⟩, ?_, ⟨?_, ?_⟩,
    ⟨?_, ?_⟩, ?_, ?_, ?_, ?_, rfl, rfl, rfl, rfl,
    by simp [vlsh_enter_raw, tcgetattr, tcsetattr]⟩
  · exact and_not32_clears _ _ _ hl (fun i h => by simp [Nat.testBit_or, h])
  · exact and_not32_clears _ _ _ hl (fun i h => by simp [Nat.testBit_or, h])
  · exact and_not32_clears _ _ _ hl (fun i h => by simp [Nat.testBit_or, h])
  · exact and_not32_clears _ _ _ hl (fun i h => by simp [Nat.testBit_or, h])
  · exact and_not32_clears _ _ _ ho (fun i h => h)
  · exact and_not32_clears _ _ _ hi (fun i h => by simp [Nat.testBit_or, h])
  · exact and_not32_clears _ _ _ hi (fun i h => by simp [Nat.testBit_or, h])
  · simp [raw_of, Function.update, VMIN, VTIME]
  · simp [raw_of, Function.update]
  · intro i h
    show (C.c_lflag &&& not32 (ECHO ||| ICANON ||| ISIG ||| IEXTEN)).testBit i = _
    rw [testBit_and_not32 _ _ _ hl, h]
    simp
  · intro i h
    show (C.c_oflag &&& not32 OPOST).testBit i = _
    rw [testBit_and_not32 _ _ _ ho, h]
    simp
  · intro i h
    show (C.c_iflag &&& not32 (ICRNL ||| IXON)).testBit i = _
    rw [testBit_and_not32 _ _ _ hi, h]
    simp
  · intro j h1 h2
    simp [raw_of, Function.update, h1, h2]

/-- The cooked terminal is well formed. -/
theorem cooked_wf : cooked.wf := by
  unfold termios.wf cooked
  decide

/-- C5 at the cooked terminal, all calls succeeding. -/
theorem enter_raw_installs_witness :
    cooked.wf ∧ (vlsh_enter_raw verbatim true true cooked cooked).tty = raw_of cooked ∧
      (raw_of cooked).c_lflag &&& ECHO = 0 ∧ (raw_of cooked).c_lflag &&& ICANON = 0 ∧
      (vlsh_enter_raw linux_store true true cooked cooked).tty
        = linux_store cooked (raw_of cooked) :=
  ⟨cooked_wf, (enter_raw_installs verbatim true true cooked cooked cooked_wf rfl rfl).2.1,
    (enter_raw_installs verbatim true true cooked cooked cooked_wf rfl rfl).2.2.1.2.2.1,
    (enter_raw_installs verbatim true true cooked cooked cooked_wf rfl rfl).2.2.1.1,
    (enter_raw_installs linux_store true true cooked cooked cooked_wf rfl rfl).2.2.2.2.2.2.2.2.2.2.2.2.2.2⟩

/-! ### Readiness multiplexer -/

/-- `wrap32` leaves a value in the range of `int` as it is. -/
theorem wrap32_of_in_range (x : Int) (hlo : INT_MIN ≤ x) (hhi : x ≤ INT_MAX) : wrap32 x = x := by
  unfold INT_MIN at hlo
  unfold INT_MAX at hhi
  unfold wrap32
  omega

/-- `FD_SET` on a descriptor in `[0, FD_SETSIZE)`. -/
theorem FD_SET_in_range (fd : Int) (set : fd_set) (h : 0 ≤ fd ∧ fd < (FD_SETSIZE : Int)) :
    FD_SET fd set = some (fun i => if (i.val : Int) = fd then true else set i) := by
  simp only [FD_SET, h, and_self, if_true]

/-- `FD_ISSET` on a descriptor in `[0, FD_SETSIZE)`. -/
theorem FD_ISSET_in_range (fd : Int) (set : fd_set) (h : 0 ≤ fd ∧ fd < (FD_SETSIZE : Int)) :
    FD_ISSET fd set = some (set ⟨fd.toNat, (Int.toNat_lt h.1).2 h.2⟩) := by
  simp only [FD_ISSET, h, and_self, dif_pos]

/-- First loop of `vlsh_select_readable` on descriptors in range: it completes,
the set holds exactly the supplied descriptors next to what it held, and
`maxfd` bounds them all and stays below `FD_SETSIZE`. -/
theorem mark_loop_spec (fds : List Int) (set : fd_set) (m0 : Int)
    (hrange : ∀ fd ∈ fds, 0 ≤ fd ∧ fd < (FD_SETSIZE : Int))
    (hm0 : 0 ≤ m0 ∧ m0 < (FD_SETSIZE : Int)) :
    ∃ set1 m1, mark_loop fds set m0 = some (set1, m1) ∧
      (∀ i : Fin FD_SETSIZE, set1 i = (decide ((i.val : Int) ∈ fds) || set i)) ∧
      (∀ fd ∈ fds, fd ≤ m1) ∧ m0 ≤ m1 ∧ m1 < (FD_SETSIZE : Int) := by
  induction fds generalizing set m0 with
  | nil => exact ⟨set, m0, rfl, by simp, by simp, le_refl _, hm0.2⟩
  | cons fd tl ih =>
    have hfd := hrange fd (List.mem_cons_self _ _)
    have htl : ∀ x ∈ tl, 0 ≤ x ∧ x < (FD_SETSIZE : Int) :=
      fun x hx => hrange x (List.mem_cons_of_mem _ hx)
    have hm : 0 ≤ (if fd > m0 then fd else m0) ∧ (if fd > m0 then fd else m0) < (FD_SETSIZE : Int) ∧
        m0 ≤ (if fd > m0 then fd else m0) ∧ fd ≤ (if fd > m0 then fd else m0) := by
      split <;> omega
    obtain ⟨set1, m1, hrun, hset, hle, hmono, hlt⟩ :=
      ih (fun i => if (i.val : Int) = fd then true else set i) (if fd > m0 then fd else m0) htl
        ⟨hm.1, hm.2.1⟩
    refine ⟨set1, m1, ?_, ?_, ?_, by omega, hlt⟩
    · simp only [mark_loop, FD_SET_in_range fd set hfd]
      exact hrun
    · intro i
      rw [hset i]
      by_cases hi : (i.val : Int) = fd
      · simp [hi]
      · simp [hi, List.mem_cons]
    · intro x hx
      rcases List.mem_cons.mp hx with rfl | hx
      · omega
      · exact hle x hx

/-- Second loop of `vlsh_select_readable`: when the set reads as `p` at every
supplied descriptor, the loop completes, appends the descriptors satisfying
`p`, in order, at `out_readable[n..]`, adds their number to `n` and writes
nowhere else. -/
theorem collect_loop_spec (set : fd_set) (p : Int → Bool) (fds : List Int) (n : Nat)
    (out : Nat → Int) (hp : ∀ fd ∈ fds, FD_ISSET fd set = some (p fd)) :
    ∃ out1, collect_loop set fds n out = some (n + (fds.filter p).length, out1) ∧
      ∀ k, out1 k = if k < n then out k else (fds.filter p).getD (k - n) (out k) := by
  induction fds generalizing n out with
  | nil => exact ⟨out, rfl, by simp⟩
  | cons fd tl ih =>
    have htl : ∀ x ∈ tl, FD_ISSET x set = some (p x) :=
      fun x hx => hp x (List.mem_cons_of_mem _ hx)
    have hfd : FD_ISSET fd set = some (p fd) := hp fd (List.mem_cons_self _ _)
    cases hpf : p fd
    · obtain ⟨out1, hrun, hout⟩ := ih n out htl
      refine ⟨out1, ?_, ?_⟩
      · simp only [collect_loop, hfd, hpf, List.filter_cons]
        simpa using hrun
      · intro k
        rw [hout k, List.filter_cons]
        simp [hpf]
    · obtain ⟨out1, hrun, hout⟩ := ih (n + 1) (Function.update out n fd) htl
      refine ⟨out1, ?_, ?_⟩
      · simp only [collect_loop, hfd, hpf, List.filter_cons, if_true, List.length_cons]
        rw [hrun]
        congr 2
        omega
      · intro k
        rw [hout k, List.filter_cons]
        simp only [hpf, if_true]
        by_cases hk : k < n
        · have hne : k ≠ n := by omega
          simp [hk, Nat.lt_succ_of_lt hk, Function.update, hne]
        · by_cases hkn : k = n
          · subst hkn
            simp [Function.update]
          · have hk1 : ¬ k < n + 1 := by omega
            have hsub : k - n = (k - (n + 1)) + 1 := by omega
            simp only [hk, hk1, if_false]
            rw [hsub, List.getD_cons_succ]
            simp [Function.update, hkn]

/-- After a `select` with a positive answer on the set and bound the first loop
built, the set reads at every supplied descriptor as that descriptor is
ready. -/
theorem isset_after_select (k : Kernel) (fds : List Int) (set1 : fd_set) (m1 : Int)
    (tv : timeval) (hpos : 0 < k.answer.ret)
    (hrange : ∀ fd ∈ fds, 0 ≤ fd ∧ fd < (FD_SETSIZE : Int))
    (hset : ∀ i : Fin FD_SETSIZE, set1 i = (decide ((i.val : Int) ∈ fds) || FD_ZERO i))
    (hle : ∀ fd ∈ fds, fd ≤ m1) (hlt : m1 < (FD_SETSIZE : Int)) (hm0 : 0 ≤ m1) :
    (select k (int_add m1 1) set1 tv).ret = k.answer.ret ∧
      ∀ fd ∈ fds, FD_ISSET fd (select k (int_add m1 1) set1 tv).readfds
        = some (k.answer.ready fd) := by
  have h1 : ¬ k.answer.ret < 0 := by omega
  have h2 : ¬ k.answer.ret = 0 := by omega
  have hsz : (FD_SETSIZE : Int) = 1024 := by simp [FD_SETSIZE]
  have hnfds : int_add m1 1 = m1 + 1 := by
    unfold int_add
    apply wrap32_of_in_range
    · unfold INT_MIN
      omega
    · unfold INT_MAX
      omega
  refine ⟨by simp [select, h1, h2], ?_⟩
  intro fd hfd
  have hr := hrange fd hfd
  rw [FD_ISSET_in_range fd _ hr]
  have hcast : ((fd.toNat : Nat) : Int) = fd := Int.toNat_of_nonneg hr.1
  have hin : set1 ⟨fd.toNat, (Int.toNat_lt hr.1).2 hr.2⟩ = true := by
    rw [hset]
    simp [hcast, hfd]
  have hbelow : fd < m1 + 1 := by
    have := hle fd hfd
    omega
  simp [select, h1, h2, hnfds, hcast, hin, hbelow]

/-- The kernel after `select`: the call is added to its log, whatever the
answer. -/
theorem select_logs_call (k : Kernel) (nfds : Int) (set : fd_set) (tv : timeval) :
    (select k nfds set tv).kernel =
      { k with waits := k.waits ++ [{ nfds := nfds, readfds := set, timeout := tv }] } := by
  unfold select
  split
  · rfl
  · split <;> rfl

/-- Every completed call of `vlsh_select_readable` has waited exactly once,
with the timeout computed at lines 70-71. -/
theorem select_readable_waits (k : Kernel) (fds : List Int) (out : Nat → Int) (timeout_ms : Int)
    (r : SelectResult) (hr : vlsh_select_readable k fds out timeout_ms = some r) :
    ∃ nfds set, r.kernel.waits = k.waits ++
      [{ nfds := nfds, readfds := set
         timeout := { tv_sec := int_div timeout_ms 1000
                      tv_usec := int_mul (int_mod timeout_ms 1000) 1000 } }] := by
  unfold vlsh_select_readable at hr
  cases hm : mark_loop fds FD_ZERO 0 with
  | none =>
    rw [hm] at hr
    exact absurd hr (by simp)
  | some sm =>
    obtain ⟨set1, m1⟩ := sm
    rw [hm] at hr
    simp only at hr
    refine ⟨int_add m1 1, set1, ?_⟩
    split at hr
    · cases hr
      simp only [select_logs_call]
    · split at hr
      · exact absurd hr (by simp)
      · cases hr
        simp only [select_logs_call]

/-- On descriptors in `[0, FD_SETSIZE)` the call `vlsh_select_readable`
completes: with a non-positive answer it returns 0 and leaves the buffer, with
a positive one it returns the number of ready descriptors among those supplied
and leaves them, in order, at the start of the buffer. -/
theorem select_readable_run (k : Kernel) (fds : List Int) (out : Nat → Int) (timeout_ms : Int)
    (hrange : ∀ fd ∈ fds, 0 ≤ fd ∧ fd < (FD_SETSIZE : Int)) :
    ∃ r, vlsh_select_readable k fds out timeout_ms = some r ∧
      (k.answer.ret ≤ 0 → r.ret = 0 ∧ r.out_readable = out) ∧
      (0 < k.answer.ret →
        r.ret = ((fds.filter k.answer.ready).length : Int) ∧
          ∀ j, r.out_readable j = (fds.filter k.answer.ready).getD j (out j)) := by
  have hsz : (FD_SETSIZE : Int) = 1024 := by simp [FD_SETSIZE]
  obtain ⟨set1, m1, hmark, hset, hle, hmono, hlt⟩ :=
    mark_loop_spec fds FD_ZERO 0 hrange ⟨le_refl _, by omega⟩
  by_cases hpos : 0 < k.answer.ret
  · obtain ⟨hret, hisset⟩ := isset_after_select k fds set1 m1
      { tv_sec := int_div timeout_ms 1000, tv_usec := int_mul (int_mod timeout_ms 1000) 1000 }
      hpos hrange hset hle hlt hmono
    obtain ⟨out1, hrun, hout⟩ := collect_loop_spec _ k.answer.ready fds 0 out hisset
    have hgo : ¬ k.answer.ret ≤ 0 := by omega
    refine ⟨{ ret := ((0 + (fds.filter k.answer.ready).length : Nat) : Int), out_readable := out1,
              kernel := (select k (int_add m1 1) set1
                { tv_sec := int_div timeout_ms 1000
                  tv_usec := int_mul (int_mod timeout_ms 1000) 1000 }).kernel }, ?_, ?_, ?_⟩
    · simp only [vlsh_select_readable, hmark, hret, hgo, if_false, hrun]
    · intro h
      omega
    · intro _
      refine ⟨by simp, ?_⟩
      intro j
      simp only
      rw [hout j]
      simp
  · have hle0 : k.answer.ret ≤ 0 := by omega
    have hsel : (select k (int_add m1 1) set1
        { tv_sec := int_div timeout_ms 1000
          tv_usec := int_mul (int_mod timeout_ms 1000) 1000 }).ret ≤ 0 := by
      unfold select
      by_cases h1 : k.answer.ret < 0
      · simp only [h1, if_true]
        omega
      · by_cases h2 : k.answer.ret = 0
        · simp [h2]
        · omega
    refine ⟨{ ret := 0, out_readable := out,
              kernel := (select k (int_add m1 1) set1
                { tv_sec := int_div timeout_ms 1000
                  tv_usec := int_mul (int_mod timeout_ms 1000) 1000 }).kernel }, ?_, ?_, ?_⟩
    · simp only [vlsh_select_readable, hmark, hsel, if_true]
    · intro _
      exact ⟨rfl, rfl⟩
    · intro h
      omega

/-- C1, as stated, fails: `[3, 1024]` has no duplicates, but 1024 is not below
`FD_SETSIZE`, so the first loop runs `FD_SET` outside the bitmap and the call
has no defined result, whatever the kernel would answer. -/
theorem select_readable_out_of_range :
    [(3 : Int), 1024].Nodup ∧
      vlsh_select_readable
        { answer := { ret := 1, ready := fun fd => decide (fd = 1024) }, waits := [] }
        [3, 1024] (fun _ => 0) 100 = none := by
  refine ⟨by decide, ?_⟩
  simp [vlsh_select_readable, mark_loop, FD_SET, FD_SETSIZE]

/-- C1, amended: for every duplicate-free list `fds` of descriptors in
`[0, FD_SETSIZE)` and every outcome of `select` with a positive return value
and ready set `ready`, `vlsh_select_readable` completes, returns the number of
supplied descriptors that are ready and leaves in `out_readable[0..n-1]` the
list `fds` filtered by readiness, in the order of `fds`; that list has no
duplicates and its members are exactly the supplied descriptors that are
ready; the buffer beyond index `n - 1` is untouched; in particular, on two
distinct descriptors `[A, B]` in that range with only `B` ready it returns 1
and leaves `B` in `out_readable[0]`. -/
theorem select_readable_filters (k : Kernel) (fds : List Int) (out : Nat → Int)
    (timeout_ms : Int) (hnodup : fds.Nodup)
    (hrange : ∀ fd ∈ fds, 0 ≤ fd ∧ fd < (FD_SETSIZE : Int)) (hpos : 0 < k.answer.ret) :
    ∃ r, vlsh_select_readable k fds out timeout_ms = some r ∧
      r.ret = ((fds.filter k.answer.ready).length : Int) ∧
      (List.range (fds.filter k.answer.ready).length).map r.out_readable
        = fds.filter k.answer.ready ∧
      (∀ j, (fds.filter k.answer.ready).length ≤ j → r.out_readable j = out j) ∧
      (fds.filter k.answer.ready).Nodup ∧
      (∀ fd, fd ∈ fds.filter k.answer.ready ↔ fd ∈ fds ∧ k.answer.ready fd = true) ∧
      ∀ A B : Int, A ≠ B → (0 ≤ A ∧ A < (FD_SETSIZE : Int)) → (0 ≤ B ∧ B < (FD_SETSIZE : Int)) →
        k.answer.ready A = false → k.answer.ready B = true →
        ∃ r2, vlsh_select_readable k [A, B] out timeout_ms = some r2 ∧ r2.ret = 1 ∧
          r2.out_readable 0 = B ∧ ∀ j, 1 ≤ j → r2.out_readable j = out j := by
  obtain ⟨r, hr, _, hfill⟩ := select_readable_run k fds out timeout_ms hrange
  obtain ⟨hn, hout⟩ := hfill hpos
  refine ⟨r, hr, hn, ?_, ?_, hnodup.filter _, fun fd => by simp [List.mem_filter], ?_⟩
  rotate_left 2
  · intro A B _ hA hB hrA hrB
    obtain ⟨r2, hr2, _, hfill2⟩ := select_readable_run k [A, B] out timeout_ms (by
      intro fd hfd
      simp only [List.mem_cons, List.mem_singleton, List.not_mem_nil, or_false] at hfd
      rcases hfd with rfl | rfl
      · exact hA
      · exact hB)
    obtain ⟨hn2, hout2⟩ := hfill2 hpos
    have hfil : [A, B].filter k.answer.ready = [B] := by
      simp [List.filter, hrA, hrB]
    rw [hfil] at hn2 hout2
    refine ⟨r2, hr2, by simpa using hn2, by rw [hout2 0]; rfl, ?_⟩
    intro j hj
    rw [hout2 j]
    exact List.getD_eq_default _ _ (by simpa using hj)
  · apply List.ext_getElem
    · simp
    · intro j hj1 hj2
      rw [List.getElem_map, List.getElem_range, hout j]
      exact List.getD_eq_getElem _ _ hj2
  · intro j hj
    rw [hout j]
    exact List.getD_eq_default _ _ hj

/-- C1, amended, at the descriptors `[3, 5]` with only 5 ready: the call returns
1 and `out_readable[0]` is 5. -/
theorem select_readable_filters_witness :
    ∃ r, vlsh_select_readable
          { answer := { ret := 1, ready := fun fd => decide (fd = 5) }, waits := [] }
          [3, 5] (fun _ => 0) 100 = some r ∧
      r.ret = 1 ∧ (List.range 1).map r.out_readable = [5] := by
  obtain ⟨r, hr, hn, hlist, _⟩ := select_readable_filters
    { answer := { ret := 1, ready := fun fd => decide (fd = 5) }, waits := [] }
    [3, 5] (fun _ => 0) 100 (by decide)
    (by
      intro fd hfd
      simp only [List.mem_cons, List.mem_singleton, List.not_mem_nil, or_false] at hfd
      rcases hfd with rfl | rfl <;> decide)
    (by decide)
  exact ⟨r, hr, hn, hlist⟩

/-- C2, as stated, fails: for the descriptor list `[1024]` the first loop runs
`FD_SET` outside the bitmap before `select` is called, so the call has no
defined result, also when the wait would time out. -/
theorem select_nothing_ready_out_of_range :
    vlsh_select_readable
      { answer := { ret := 0, ready := fun _ => false }, waits := [] }
      [1024] (fun _ => 7) 0 = none := by
  simp [vlsh_select_readable, mark_loop, FD_SET, FD_SETSIZE]

/-- C2, amended: for every list of descriptors in `[0, FD_SETSIZE)`, every buffer
and every timeout, when `select` returns 0 (timeout) or a negative value
(interruption, error), `vlsh_select_readable` completes, returns 0 and leaves
`out_readable` as it was. -/
theorem select_readable_nothing_ready (k : Kernel) (fds : List Int) (out : Nat → Int)
    (timeout_ms : Int) (hrange : ∀ fd ∈ fds, 0 ≤ fd ∧ fd < (FD_SETSIZE : Int))
    (hret : k.answer.ret ≤ 0) :
    ∃ r, vlsh_select_readable k fds out timeout_ms = some r ∧ r.ret = 0 ∧
      r.out_readable = out := by
  obtain ⟨r, hr, hzero, _⟩ := select_readable_run k fds out timeout_ms hrange
  exact ⟨r, hr, (hzero hret).1, (hzero hret).2⟩

/-- C2, amended, at an interrupted wait on `[3, 5]` with a buffer holding 7
everywhere. -/
theorem select_readable_nothing_ready_witness :
    ∃ r, vlsh_select_readable
          { answer := { ret := -1, ready := fun _ => false }, waits := [] }
          [3, 5] (fun _ => 7) 250 = some r ∧
      r.ret = 0 ∧ r.out_readable = fun _ => 7 :=
  select_readable_nothing_ready
    { answer := { ret := -1, ready := fun _ => false }, waits := [] }
    [3, 5] (fun _ => 7) 250
    (by
      intro fd hfd
      simp only [List.mem_cons, List.mem_singleton, List.not_mem_nil, or_false] at hfd
      rcases hfd with rfl | rfl <;> decide)
    (by decide)

/-- C9: for every non-negative `int` `timeout_ms`, every completed call of
`vlsh_select_readable` has handed `select` exactly one wait, whose `timeval` is
`timeout_ms` milliseconds in normalised form: seconds and microseconds add up
to `timeout_ms * 1000` microseconds with the microseconds in `[0, 1000000)`,
and are zero seconds and zero microseconds for `timeout_ms = 0`; the call
completes whenever the descriptors lie in `[0, FD_SETSIZE)`; and the quotient,
the remainder and the product the code computes in `int` all lie in the range
of a 32-bit `int`, so nothing wraps and the fields are the exact values. -/
theorem select_timeout_exact (k : Kernel) (fds : List Int) (out : Nat → Int) (timeout_ms : Int)
    (h0 : 0 ≤ timeout_ms) (hmax : timeout_ms ≤ INT_MAX) :
    (∀ r, vlsh_select_readable k fds out timeout_ms = some r →
      ∃ c, r.kernel.waits = k.waits ++ [c] ∧
        c.timeout.tv_sec * 1000000 + c.timeout.tv_usec = timeout_ms * 1000 ∧
        0 ≤ c.timeout.tv_usec ∧ c.timeout.tv_usec < 1000000 ∧
        c.timeout.tv_sec = Int.tdiv timeout_ms 1000 ∧
        c.timeout.tv_usec = Int.tmod timeout_ms 1000 * 1000 ∧
        (timeout_ms = 0 → c.timeout = { tv_sec := 0, tv_usec := 0 })) ∧
      ((∀ fd ∈ fds, 0 ≤ fd ∧ fd < (FD_SETSIZE : Int)) →
        ∃ r, vlsh_select_readable k fds out timeout_ms = some r) ∧
      (INT_MIN ≤ Int.tdiv timeout_ms 1000 ∧ Int.tdiv timeout_ms 1000 ≤ INT_MAX) ∧
      (INT_MIN ≤ Int.tmod timeout_ms 1000 ∧ Int.tmod timeout_ms 1000 ≤ INT_MAX) ∧
      (INT_MIN ≤ Int.tmod timeout_ms 1000 * 1000 ∧
        Int.tmod timeout_ms 1000 * 1000 ≤ INT_MAX) := by
  have hd : Int.tdiv timeout_ms 1000 = timeout_ms / 1000 := Int.tdiv_eq_ediv h0 (by norm_num)
  have hm : Int.tmod timeout_ms 1000 = timeout_ms % 1000 := Int.tmod_eq_emod h0 (by norm_num)
  have hmax2 : timeout_ms ≤ 2147483647 := hmax
  have r1 : INT_MIN ≤ timeout_ms / 1000 ∧ timeout_ms / 1000 ≤ INT_MAX := by
    unfold INT_MIN INT_MAX
    omega
  have r2 : INT_MIN ≤ timeout_ms % 1000 ∧ timeout_ms % 1000 ≤ INT_MAX := by
    unfold INT_MIN INT_MAX
    omega
  have r3 : INT_MIN ≤ timeout_ms % 1000 * 1000 ∧ timeout_ms % 1000 * 1000 ≤ INT_MAX := by
    unfold INT_MIN INT_MAX
    omega
  have hsec : int_div timeout_ms 1000 = timeout_ms / 1000 := by
    unfold int_div
    rw [hd]
    exact wrap32_of_in_range _ r1.1 r1.2
  have husec : int_mul (int_mod timeout_ms 1000) 1000 = timeout_ms % 1000 * 1000 := by
    unfold int_mul int_mod
    rw [hm, wrap32_of_in_range _ r2.1 r2.2]
    exact wrap32_of_in_range _ r3.1 r3.2
  rw [hd, hm]
  refine ⟨?_, ?_, r1, r2, r3⟩
  · intro r hr
    obtain ⟨nfds, set, hw⟩ := select_readable_waits k fds out timeout_ms r hr
    rw [hsec, husec] at hw
    refine ⟨_, hw, ?_, ?_, ?_, rfl, rfl, ?_⟩
    · simp only
      omega
    · simp only
      omega
    · simp only
      omega
    · intro hz
      subst hz
      rfl
  · intro hrange
    obtain ⟨r, hr, _⟩ := select_readable_run k fds out timeout_ms hrange
    exact ⟨r, hr⟩

/-- C9 at `timeout_ms = 1500` on the descriptors `[3, 5]`: the call completes
and has handed `select` one wait of 1 s and 500000 us. -/
theorem select_timeout_exact_witness :
    ∃ r c, vlsh_select_readable
          { answer := { ret := 0, ready := fun _ => false }, waits := [] }
          [3, 5] (fun _ => 0) 1500 = some r ∧
      r.kernel.waits = [c] ∧ c.timeout = { tv_sec := 1, tv_usec := 500000 } := by
  have h := select_timeout_exact
    { answer := { ret := 0, ready := fun _ => false }, waits := [] }
    [3, 5] (fun _ => 0) 1500 (by decide) (by decide)
  obtain ⟨r, hr⟩ := h.2.1 (by
    intro fd hfd
    simp only [List.mem_cons, List.mem_singleton, List.not_mem_nil, or_false] at hfd
    rcases hfd with rfl | rfl <;> decide)
  obtain ⟨c, hw, _, _, _, hs, hu, _⟩ := h.1 r hr
  refine ⟨r, c, hr, by simpa using hw, ?_⟩
  have e1 : Int.tdiv 1500 1000 = 1 := by decide
  have e2 : Int.tmod 1500 1000 * 1000 = 500000 := by decide
  rw [e1] at hs
  rw [e2] at hu
  cases hc : c.timeout with
  | mk s u =>
    rw [hc] at hs hu
    simp only at hs hu
    rw [hs, hu]

/-! ### Resize signal latch -/

/-- Started clear, the flag is 1 after a sequence of whole events exactly when a
signal was delivered after the last poll, and 0 otherwise. -/
theorem flag_after_events (evs : List Event) :
    (run_events sigwinch_flag_init evs).1 = if signalled_since_last_poll evs then 1 else 0 := by
  induction evs using List.reverseRecOn with
  | nil => rfl
  | append_singleton evs e _ =>
    cases e with
    | signal =>
      have h : signalled_since_last_poll (evs ++ [Event.signal]) = true := by
        simp [signalled_since_last_poll, List.takeWhile_cons]
      rw [h]
      simp [run_events, List.foldl_append, on_event, _vlsh_sigwinch_handler]
    | poll =>
      have h : signalled_since_last_poll (evs ++ [Event.poll]) = false := by
        simp [signalled_since_last_poll, List.takeWhile_cons]
      rw [h]
      simp [run_events, List.foldl_append, on_event, vlsh_check_sigwinch]

/-- C6: the latch is one bit without a queue.  For every sequence of signal
deliveries and uninterrupted calls of `vlsh_check_sigwinch` from the initial
flag, a further call returns 1 when a signal was delivered since the previous
call (or since the start) and 0 otherwise, the earlier return values stand, and
the flag is 0 after the call; so two signals before one poll give one true
result and then false on every poll until the next signal. -/
theorem latch_single_bit (evs : List Event) :
    run_events sigwinch_flag_init (evs ++ [Event.poll]) =
        (0, (run_events sigwinch_flag_init evs).2 ++
          [if signalled_since_last_poll evs then 1 else 0]) ∧
      (run_events sigwinch_flag_init (evs ++ [Event.signal])).2
        = (run_events sigwinch_flag_init evs).2 ∧
      (run_events sigwinch_flag_init
        [Event.signal, Event.signal, Event.poll, Event.poll, Event.poll, Event.signal,
          Event.poll]).2 = [1, 0, 0, 1] := by
  refine ⟨?_, ?_, by decide⟩
  · have hflag := flag_after_events evs
    simp only [run_events] at hflag
    simp only [run_events, List.foldl_append, List.foldl_cons, List.foldl_nil, on_event,
      vlsh_check_sigwinch, hflag]
  · simp [run_events, List.foldl_append, on_event]

/-- The steps `read` and `clear` with nothing delivered between them are one
uninterrupted call of `vlsh_check_sigwinch`. -/
theorem read_clear_is_check (m : Latch) :
    (on_step (on_step m Step.read) Step.clear).flag = (vlsh_check_sigwinch m.flag).2 ∧
      (on_step (on_step m Step.read) Step.clear).returned =
        m.returned ++ [(vlsh_check_sigwinch m.flag).1] := by
  simp [on_step, vlsh_check_sigwinch]

/-- Signals alone leave the latch set when there is at least one, and touch
neither the local of a call in progress nor the values returned so far. -/
theorem deliver_fold (m : Latch) (a : Nat) :
    (List.replicate a Step.deliver).foldl on_step m =
      { m with flag := if 0 < a then 1 else m.flag } := by
  induction a generalizing m with
  | zero => simp
  | succ a ih =>
    rw [List.replicate_succ, List.foldl_cons, ih]
    by_cases ha : 0 < a <;> simp [on_step, _vlsh_sigwinch_handler, ha]

/-- One round from any latch: the poll returns the flag as it was at the read,
and the clear erases whatever was delivered after the read. -/
theorem round_fold (m : Latch) (r : Nat × Nat) :
    (round_steps r).foldl on_step m =
      { flag := 0
        v := if 0 < r.1 then 1 else m.flag
        returned := m.returned ++ [if 0 < r.1 then 1 else m.flag] } := by
  simp only [round_steps, List.foldl_append, deliver_fold, List.foldl_cons, List.foldl_nil,
    on_step]

/-- Rounds from a latch whose flag is clear. -/
theorem rounds_fold (rs : List (Nat × Nat)) (m : Latch) (hm : m.flag = 0) :
    ((rs.flatMap round_steps).foldl on_step m).returned =
        m.returned ++ rs.map (fun r => if 0 < r.1 then 1 else 0) ∧
      ((rs.flatMap round_steps).foldl on_step m).flag = 0 := by
  induction rs generalizing m with
  | nil => simp [hm]
  | cons r tl ih =>
    rw [List.flatMap_cons, List.foldl_append, round_fold]
    obtain ⟨h1, h2⟩ := ih
      { flag := 0
        v := if 0 < r.1 then 1 else m.flag
        returned := m.returned ++ [if 0 < r.1 then 1 else m.flag] } rfl
    rw [h1, h2]
    simp [hm]

/-- C8, as stated, fails: a signal delivered between the read and the clear of a
poll that read 0 is erased by the clear; that poll and the next one both
return 0, so the signal is reported by no poll. -/
theorem sigwinch_lost_in_window :
    [Step.read, Step.deliver, Step.clear, Step.read, Step.clear] =
        round_steps (0, 1) ++ round_steps (0, 0) ∧
      (run_steps [Step.read, Step.deliver, Step.clear, Step.read, Step.clear]).returned = [0, 0] ∧
      reported_after [Step.read, Step.deliver, Step.clear, Step.read, Step.clear] 1 = false := by
  decide

/-- C8, amended: the read and the clear of `vlsh_check_sigwinch` are two steps.
For every sequence of rounds, each with any number of signals before the read
and any number between the read and the clear, a poll returns 1 exactly when a
signal was delivered after the previous poll's clear (or the start) and before
its own read, and 0 otherwise; signals delivered between the read and the
clear change no return value, and the flag is 0 after every poll. -/
theorem sigwinch_reports_outside_window (rs : List (Nat × Nat)) :
    (run_steps (rs.flatMap round_steps)).returned = rs.map (fun r => if 0 < r.1 then 1 else 0) ∧
      (run_steps (rs.flatMap round_steps)).flag = 0 := by
  have h := rounds_fold rs { flag := sigwinch_flag_init, v := 0, returned := [] } rfl
  simpa [run_steps] using h

end Vlsh
